import Mathlib

/-!
Verification of the fishstock-alerts ingestion-and-matching pipeline.

The definitions below are a shallow embedding of the backend JavaScript
sources (`dwrParser.js`, `coParser.js`, `db.js`, `notify.js`, and the
`runPollOnce` entry point).  Strings are modelled as Lean `String`s,
JS numbers coming out of `parseInt` as `Nat`, numbers coming out of
`parseFloat` as exact decimals, and the SHA-1 digest as an abstract
`hash : String → String` parameter (the sources only rely on the digest
being a deterministic function of the fingerprint; injectivity is taken
as an explicit hypothesis where a claim needs collision-freeness).
-/

namespace FishStock

/-! ### Character / string primitives (JS semantics) -/

/-- JS `\s` whitespace, restricted to the ASCII whitespace characters. -/
def isWsChar (c : Char) : Bool :=
  c == ' ' || c == '\t' || c == '\n' || c == '\r' || c == '\x0b' || c == '\x0c'

/-- ASCII uppercasing of a single character, as JS `toUpperCase` acts on ASCII. -/
def jsCharUpper (c : Char) : Char :=
  if 97 ≤ c.toNat ∧ c.toNat ≤ 122 then Char.ofNat (c.toNat - 32) else c

/-- ASCII lowercasing of a single character, as JS `toLowerCase` acts on ASCII. -/
def jsCharLower (c : Char) : Char :=
  if 65 ≤ c.toNat ∧ c.toNat ≤ 90 then Char.ofNat (c.toNat + 32) else c

/-- JS `String.prototype.toUpperCase` (ASCII fragment). -/
def jsToUpper (s : String) : String := String.mk (s.data.map jsCharUpper)

/-- JS `String.prototype.toLowerCase` (ASCII fragment). -/
def jsToLower (s : String) : String := String.mk (s.data.map jsCharLower)

/-- JS `String.prototype.trim` on the underlying character list. -/
def jsTrimL (cs : List Char) : List Char :=
  ((cs.dropWhile isWsChar).reverse.dropWhile isWsChar).reverse

/-- JS `String.prototype.trim`. -/
def jsTrim (s : String) : String := String.mk (jsTrimL s.data)

/-- Test `leadsWith pat cs` : `cs` starts with the characters of `pat`. -/
def leadsWith : List Char → List Char → Bool
  | [], _ => true
  | _ :: _, [] => false
  | p :: ps, c :: cs => p == c && leadsWith ps cs

/-- Substring occurrence test on character lists. -/
def subIn (pat : List Char) : List Char → Bool
  | [] => leadsWith pat []
  | c :: cs => leadsWith pat (c :: cs) || subIn pat cs

/-- Test `strContains s pat` : `pat` occurs contiguously inside `s`. -/
def strContains (s pat : String) : Bool := subIn pat.data s.data

/-- JS `padStart(2, "0")`. -/
def pad2 (s : String) : String :=
  String.mk (List.replicate (2 - s.data.length) '0' ++ s.data)

/-- Numeric value of a digit list (for `parseInt` on an all-digit string). -/
def natOfDigits (cs : List Char) : Nat :=
  cs.foldl (fun n c => n * 10 + (c.toNat - 48)) 0

/-! ### Date regex `(\d{1,2})/(\d{1,2})/(\d{4})`

Faithful model of the JS regex search used by both `normalizeDate`
implementations: leftmost match, greedy `\d{1,2}` groups (two digits
tried before one). -/

/-- Take exactly `n` leading digits, returning them and the rest. -/
def takeDigitsN : Nat → List Char → Option (List Char × List Char)
  | 0, cs => some ([], cs)
  | _ + 1, [] => none
  | n + 1, c :: cs =>
    if c.isDigit then
      match takeDigitsN n cs with
      | some (ds, r) => some (c :: ds, r)
      | none => none
    else none

/-- Consume one literal `/`. -/
def matchSlash : List Char → Option (List Char)
  | [] => none
  | c :: r => if c = '/' then some r else none

/-- One `(\d{n})/(\d{4})` attempt (day with fixed group width, then year). -/
def tailBranch (n : Nat) (cs : List Char) : Option (List Char × List Char × List Char) :=
  match takeDigitsN n cs with
  | some (d, r1) =>
    match matchSlash r1 with
    | some r2 =>
      match takeDigitsN 4 r2 with
      | some (y, r3) => some (d, y, r3)
      | none => none
    | none => none
  | none => none

/-- Match `(\d{1,2})/(\d{4})` (day and year) at the head, greedily: the
two-digit attempt is tried before the one-digit attempt. -/
def matchTail (cs : List Char) : Option (List Char × List Char × List Char) :=
  (tailBranch 2 cs).orElse fun _ => tailBranch 1 cs

/-- One full-pattern attempt with a fixed month group width. -/
def dateBranch (n : Nat) (cs : List Char) :
    Option (List Char × List Char × List Char × List Char) :=
  match takeDigitsN n cs with
  | some (m, r1) =>
    match matchSlash r1 with
    | some r2 =>
      match matchTail r2 with
      | some (d, y, r3) => some (m, d, y, r3)
      | none => none
    | none => none
  | none => none

/-- Match the full date pattern at the head of the list, greedily.  Returns
the three groups (month, day, year) and the remaining characters. -/
def matchDateAt (cs : List Char) : Option (List Char × List Char × List Char × List Char) :=
  (dateBranch 2 cs).orElse fun _ => dateBranch 1 cs

/-- Leftmost regex search for the date pattern. -/
def searchDate : List Char → Option (List Char × List Char × List Char)
  | [] => none
  | c :: cs =>
    match matchDateAt (c :: cs) with
    | some (m, d, y, _) => some (m, d, y)
    | none => searchDate cs

/-- The `normalizeDate` function (identical in `dwrParser.js` and `coParser.js`):
match `(\d{1,2})/(\d{1,2})/(\d{4})`, zero-pad month and day, reassemble
as `YYYY-MM-DD`; no match yields `""`. -/
def normalizeDate (s : String) : String :=
  match searchDate s.data with
  | none => ""
  | some (m, d, y) =>
    String.mk y ++ "-" ++ pad2 (String.mk m) ++ "-" ++ pad2 (String.mk d)

/-- JS `\w` word character (for `\b` boundaries). -/
def isWordChar (c : Char) : Bool := c.isAlpha || c.isDigit || c == '_'

/-- The boundary `\b` before the match: start of string or non-word char. -/
def boundaryOk : Option Char → Bool
  | none => true
  | some p => !isWordChar p

/-- Pattern match at this position with a `\b` boundary after the year. -/
def dateHereOk (cs : List Char) : Bool :=
  match matchDateAt cs with
  | some (_, _, _, r) =>
    match r with
    | [] => true
    | rc :: _ => !isWordChar rc
  | none => false

/-- Word-boundary-aware search for `\b\d{1,2}/\d{1,2}/\d{4}\b`, tracking the
previous character; models `coParser.js`'s `isDate` test. -/
def isDateSearch : Option Char → List Char → Bool
  | _, [] => false
  | prev, c :: cs => (boundaryOk prev && dateHereOk (c :: cs)) || isDateSearch (some c) cs

/-- Model of `coParser.js`'s `isDate`: `/\b\d{1,2}\/\d{1,2}\/\d{4}\b/.test(x)`. -/
def isDate (s : String) : Bool := isDateSearch none s.data


/-! ### HTML scanning (the regexes of `dwrParser.js`)

`html.match(/<tr[\s\S]*?<\/tr>/gi)` and friends: find the leftmost
case-insensitive occurrence of the opening literal, extend lazily to the
first occurrence of the closing literal, emit the block, continue after
it.  The scanners take a fuel argument (initialised with the input
length) so that all recursion is structural. -/

/-- Case-insensitive `leadsWith`. -/
def ciLeads : List Char → List Char → Bool
  | [], _ => true
  | _ :: _, [] => false
  | p :: ps, c :: cs => jsCharLower p == jsCharLower c && ciLeads ps cs

/-- Split at the first case-insensitive occurrence of `pat`:
returns `(before, matched-as-written, after)`. -/
def splitAtCi (pat : List Char) : List Char → Option (List Char × List Char × List Char)
  | [] => none
  | c :: cs =>
    if ciLeads pat (c :: cs) then
      some ([], (c :: cs).take pat.length, (c :: cs).drop pat.length)
    else
      match splitAtCi pat cs with
      | some (b, m, a) => some (c :: b, m, a)
      | none => none

/-- All lazy `open … close` blocks, in order (`/g` flag). -/
def scanBlocksF (po pc : List Char) : Nat → List Char → List (List Char)
  | 0, _ => []
  | _, [] => []
  | fuel + 1, c :: cs =>
    if ciLeads po (c :: cs) then
      match splitAtCi pc ((c :: cs).drop po.length) with
      | some (b, m, a) => ((c :: cs).take po.length ++ b ++ m) :: scanBlocksF po pc fuel a
      | none => scanBlocksF po pc fuel cs
    else scanBlocksF po pc fuel cs

/-- Model of `s.match(/open[\s\S]*?close/gi) || []` as a list of block strings. -/
def scanBlocks (po pc : String) (s : String) : List String :=
  (scanBlocksF po.data pc.data s.data.length s.data).map String.mk

/-- Remove every lazy `open … close` block (`.replace(/open[\s\S]*?close/gi, "")`). -/
def removeBlocksF (po pc : List Char) : Nat → List Char → List Char
  | 0, cs => cs
  | _, [] => []
  | fuel + 1, c :: cs =>
    if ciLeads po (c :: cs) then
      match splitAtCi pc ((c :: cs).drop po.length) with
      | some (_, _, a) => removeBlocksF po pc fuel a
      | none => c :: removeBlocksF po pc fuel cs
    else c :: removeBlocksF po pc fuel cs

/-- Split at the first occurrence of a single character. -/
def splitAtCh (ch : Char) : List Char → Option (List Char × List Char)
  | [] => none
  | c :: cs =>
    if c == ch then some ([], cs)
    else
      match splitAtCh ch cs with
      | some (b, a) => some (c :: b, a)
      | none => none

/-- Model of `.replace(/<[^>]+>/g, " ")`. -/
def stripAngleF : Nat → List Char → List Char
  | 0, cs => cs
  | _, [] => []
  | fuel + 1, c :: cs =>
    if c == '<' then
      match splitAtCh '>' cs with
      | some (b, a) => if b.isEmpty then c :: stripAngleF fuel cs else ' ' :: stripAngleF fuel a
      | none => c :: stripAngleF fuel cs
    else c :: stripAngleF fuel cs

/-- Model of `.replace(/\s+/g, " ")`. -/
def collapseWsF : Nat → List Char → List Char
  | 0, cs => cs
  | _, [] => []
  | fuel + 1, c :: cs =>
    if isWsChar c then ' ' :: collapseWsF fuel (cs.dropWhile isWsChar)
    else c :: collapseWsF fuel cs

/-- The `stripTags` helper from `dwrParser.js`: drop script/style blocks, replace the
remaining tags by spaces, collapse whitespace runs, trim. -/
def stripTags (s : String) : String :=
  let a := removeBlocksF "<script".data "</script>".data s.data.length s.data
  let b := removeBlocksF "<style".data "</style>".data a.length a
  let c := stripAngleF b.length b
  let d := collapseWsF c.length c
  String.mk (jsTrimL d)


/-! ### Numbers: `parseInt` / `parseFloat` on cleaned cells -/

/-- Model of `parseInt(cell.replace(/[^\d]/g, ""), 10)`, as `Option Nat`
(`NaN`, i.e. an empty digit string, becomes `none`). -/
def parseIntDigits (s : String) : Option Nat :=
  let ds := s.data.filter Char.isDigit
  if ds.isEmpty then none else some (natOfDigits ds)

/-- Exact decimal value of a JS float parsed from a digits-and-dots string:
integer part and fractional digits (trailing zeros stripped so that equal
JS numbers have equal representations). -/
structure Dec where
  intPart : Nat
  frac : List Char
deriving DecidableEq, Repr

/-- Strip trailing `'0'` characters. -/
def stripTrailingZeros (cs : List Char) : List Char :=
  (cs.reverse.dropWhile (· == '0')).reverse

/-- Model of `parseFloat(cell.replace(/[^\d.]/g, ""))` as `Option Dec`
(`NaN` becomes `none`; parsing takes the longest numeric literal at the
start of the cleaned string, exactly as `parseFloat` does). -/
def parseFloatClean (s : String) : Option Dec :=
  let cs := s.data.filter (fun c => c.isDigit || c == '.')
  let ip := cs.takeWhile Char.isDigit
  let r1 := cs.dropWhile Char.isDigit
  match r1 with
  | '.' :: r2 =>
    let fp := r2.takeWhile Char.isDigit
    if ip.isEmpty && fp.isEmpty then none
    else some ⟨natOfDigits ip, stripTrailingZeros fp⟩
  | _ => if ip.isEmpty then none else some ⟨natOfDigits ip, []⟩

/-- JS number-to-string for a nonnegative decimal (`${x}` interpolation). -/
def Dec.render (d : Dec) : String :=
  let f := stripTrailingZeros d.frac
  if f.isEmpty then toString d.intPart
  else toString d.intPart ++ "." ++ String.mk f

/-- JS truthiness of the number (`0` and `0.0…` are falsy). -/
def Dec.truthy (d : Dec) : Bool :=
  !(d.intPart == 0 && (stripTrailingZeros d.frac).isEmpty)


/-- Model of `Number(q).toLocaleString()`: decimal digits with thousands separators. -/
def groupRev : List Char → List Char
  | a :: b :: c :: d :: rest => a :: b :: c :: ',' :: groupRev (d :: rest)
  | l => l

/-- Grouping `toLocaleString` for a natural number. -/
def toLocaleString (n : Nat) : String :=
  String.mk (groupRev (toString n).data.reverse).reverse


/-! ### Canonical Stocking Event and the two extractors -/

/-- The canonical stocking-event record (row of `stock_events`). -/
structure StockEvent where
  id : String
  water_name : String
  county : String
  species : String
  quantity : Option Nat
  avg_length : Option Dec
  date_stocked : String
  first_seen_at : String
deriving DecidableEq, Repr

/-- Rendering of the optional quantity inside the fingerprint
(`Number.isFinite(q) ? q : ""`). -/
def optNatStr : Option Nat → String
  | some n => toString n
  | none => ""

/-- Rendering of the optional average length inside the fingerprint. -/
def optDecStr : Option Dec → String
  | some d => d.render
  | none => ""

/-- The DWR fingerprint: `` `${w}|${c}|${s}|${q}|${l}|${d}` ``. -/
def dwrFingerprint (w c s : String) (q : Option Nat) (l : Option Dec) (d : String) : String :=
  w ++ "|" ++ c ++ "|" ++ s ++ "|" ++ optNatStr q ++ "|" ++ optDecStr l ++ "|" ++ d

/-- The per-row body of `parseDwrFishStockingHtml`, taking the `<td>` blocks
matched inside one `<tr>` block.  `hash` abstracts `sha1`, `now` the
`new Date().toISOString()` stamp. -/
def dwrRowFromTds (hash : String → String) (now : String) (tds : List String) :
    Option StockEvent :=
  if tds.length < 6 then none
  else
    let cells := tds.map stripTags
    let water_name := cells.getD 0 ""
    let county := cells.getD 1 ""
    let species := cells.getD 2 ""
    let quantity := parseIntDigits (cells.getD 3 "")
    let avg_length := parseFloatClean (cells.getD 4 "")
    let date_stocked := normalizeDate (cells.getD 5 "")
    if water_name = "" ∨ county = "" ∨ species = "" ∨ date_stocked = "" then none
    else
      some
        { id := hash (dwrFingerprint water_name county species quantity avg_length date_stocked)
          water_name := water_name
          county := county
          species := species
          quantity := quantity
          avg_length := avg_length
          date_stocked := date_stocked
          first_seen_at := now }

/-- The within-batch dedup loop, threading the set of seen ids. -/
def dedupByIdGo (seen : List String) : List StockEvent → List StockEvent
  | [] => []
  | e :: rest =>
    if seen.contains e.id then dedupByIdGo seen rest
    else e :: dedupByIdGo (e.id :: seen) rest

/-- Within-batch dedup: keep the first event carrying each `id`. -/
def dedupById (es : List StockEvent) : List StockEvent :=
  dedupByIdGo [] es

/-- The parser `parseDwrFishStockingHtml`: split into `<tr>` blocks, extract `<td>`
cells per row, build events, dedup by `id`. -/
def parseDwrFishStockingHtml (hash : String → String) (now : String) (html : String) :
    List StockEvent :=
  dedupById
    ((scanBlocks "<tr" "</tr>" html).filterMap fun row =>
      dwrRowFromTds hash now (scanBlocks "<td" "</td>" row))

/-- The header/footer labels rejected inside the free-text triple walk. -/
def coBadLabels : List String :=
  ["trout stocking report", "body of water", "region", "report date",
   "link", "atlas", "atlas+", "view stocking report archive"]

/-- Predicate `isBad` from `coParser.js`: label membership of the cleaned, lowercased line. -/
def isBadLine (s : String) : Bool := coBadLabels.contains (jsToLower (jsTrim s))

/-- The event built from one accepted (water, region, date) triple. -/
def mkCoEvent (hash : String → String) (now a b : String) (date : String) : StockEvent :=
  { id := hash ("CO|" ++ a ++ "|" ++ jsToUpper b ++ "|TROUT|" ++ date)
    water_name := a
    county := jsToUpper b
    species := "TROUT"
    quantity := none
    avg_length := none
    date_stocked := date
    first_seen_at := now }

/-- The sliding-window triple walk of `fetchColoradoEvents` (`for` loop over
`lines`): accept a (water, region, date) triple and advance past it, or
advance by a single line. -/
def coWalk (hash : String → String) (now : String) : List String → List StockEvent
  | a :: b :: c :: rest =>
    let a' := jsTrim a
    let b' := jsTrim b
    let c' := jsTrim c
    if a' = "" ∨ b' = "" ∨ c' = "" then coWalk hash now (b :: c :: rest)
    else if isBadLine a' || isBadLine b' || isBadLine c' then coWalk hash now (b :: c :: rest)
    else if isDate a' || isDate b' || !isDate c' then coWalk hash now (b :: c :: rest)
    else
      let date := normalizeDate c'
      if date = "" then coWalk hash now (b :: c :: rest)
      else mkCoEvent hash now a' b' date :: coWalk hash now rest
  | _ => []

/-- The free-text extractor from its candidate lines onwards: triple walk
followed by the within-batch dedup. -/
def coEventsFromLines (hash : String → String) (now : String) (lines : List String) :
    List StockEvent :=
  dedupById (coWalk hash now lines)

/-- The identity hash used to instantiate `hash` in concrete runs. -/
def idHash (s : String) : String := s



/-! ### Subscriptions, matching, notification formatting (`notify.js`) -/

/-- A subscription row, as returned by `listSubscriptions`. -/
structure Subscription where
  expo_push_token : String
  counties : List String
  species : List String
  waters : List String
deriving DecidableEq, Repr

/-- Model of `String(x).toUpperCase().trim()`. -/
def upTrim (s : String) : String := jsTrim (jsToUpper s)

/-- Model of `matchesSubscription(event, sub)`: each dimension matches if its filter
list is empty or contains the uppercased, trimmed event value. -/
def matchesSubscription (e : StockEvent) (sub : Subscription) : Bool :=
  let evCounty := upTrim e.county
  let evSpecies := upTrim e.species
  let evWater := upTrim e.water_name
  let subCounties := sub.counties.map upTrim
  let subSpecies := sub.species.map upTrim
  let subWaters := sub.waters.map upTrim
  (subCounties.isEmpty || subCounties.contains evCounty) &&
  (subSpecies.isEmpty || subSpecies.contains evSpecies) &&
  (subWaters.isEmpty || subWaters.contains evWater)

/-- The rendered notification (title, body, `data.eventId`). -/
structure Notification where
  title : String
  body : String
  eventId : String
deriving DecidableEq, Repr

/-- Model of `formatNotification(event)`.  Truthiness decides the optional parts:
`event.quantity ? … : "Fish stocked"` and `event.avg_length ? … : ""`. -/
def formatNotification (e : StockEvent) : Notification :=
  let qty :=
    match e.quantity with
    | some q => if q ≠ 0 then toLocaleString q ++ " fish" else "Fish stocked"
    | none => "Fish stocked"
  let len :=
    match e.avg_length with
    | some d => if d.truthy then " • " ++ d.render ++ "\" avg" else ""
    | none => ""
  { title := "Stocked: " ++ e.species
    body := e.water_name ++ " (" ++ e.county ++ ") — " ++ qty ++ len ++ " — " ++ e.date_stocked
    eventId := e.id }

/-! ### Record store (`db.js`) -/

/-- Lexicographic `≤` on character lists by code point (SQLite text order). -/
def strLeL : List Char → List Char → Bool
  | [], _ => true
  | _ :: _, [] => false
  | a :: as, b :: bs =>
    if a.toNat < b.toNat then true
    else if a.toNat = b.toNat then strLeL as bs
    else false

/-- Comparison `a.first_seen_at ≤ b.first_seen_at` as SQLite compares the text column. -/
def tsLeB (a b : StockEvent) : Bool := strLeL a.first_seen_at.data b.first_seen_at.data

/-- Insert an event into a descending-by-`first_seen_at` list. -/
def insDesc (e : StockEvent) : List StockEvent → List StockEvent
  | [] => [e]
  | x :: xs => if tsLeB e x then x :: insDesc e xs else e :: x :: xs

/-- Model of `ORDER BY first_seen_at DESC` over the whole table. -/
def sortDesc (l : List StockEvent) : List StockEvent := l.foldr insDesc []

/-- The `INSERT OR IGNORE` transaction loop: returns the number of rows
actually inserted and the table afterwards. -/
def insertLoop (store : List StockEvent) : List StockEvent → Nat × List StockEvent
  | [] => (0, store)
  | e :: es =>
    if store.any (fun r => r.id == e.id) then insertLoop store es
    else
      let (n, st) := insertLoop (store ++ [e]) es
      (n + 1, st)

/-- Model of `insertNewEvents(events)`: run the transaction, then select the
`insertedCount` most recent rows by `first_seen_at`.
Returns `(insertedCount, newOnes, store')`. -/
def insertNewEvents (store events : List StockEvent) :
    Nat × List StockEvent × List StockEvent :=
  let (insertedCount, store') := insertLoop store events
  (insertedCount, (sortDesc store').take insertedCount, store')

/-! ### One poll cycle (`runPollOnce`) -/

/-- One outgoing Expo push message. -/
structure PushMessage where
  toTok : String
  title : String
  body : String
  eventId : String
deriving DecidableEq, Repr

/-- The message dedup key `` `${m.to}|${m.data?.eventId}` ``. -/
def msgKey (m : PushMessage) : String := m.toTok ++ "|" ++ m.eventId

/-- One `Map.set` step: replace in place if the key exists, else append. -/
def upsertMsg (l : List PushMessage) (m : PushMessage) : List PushMessage :=
  if l.any (fun x => msgKey x == msgKey m) then
    l.map fun x => if msgKey x == msgKey m then m else x
  else l ++ [m]

/-- The `Map`-based dedup of the message list by `(token, event id)`. -/
def dedupMsgs (ms : List PushMessage) : List PushMessage := ms.foldl upsertMsg []

/-- The summary object returned by `runPollOnce`, extended with the final
message batch for observability. -/
structure PollSummary where
  parsed : Nat
  inserted : Nat
  subscriptions : Nat
  matchedMessages : Nat
  pushed : Nat
  messages : List PushMessage
deriving DecidableEq, Repr

/-- Model of `runPollOnce()`, with the fetched page body, the prior store, and the
stored subscriptions passed explicitly.  The push transport is assumed to
succeed, reporting `sent = messages.length` as `notify.js` does. -/
def runPollOnce (hash : String → String) (now : String) (html : String)
    (store : List StockEvent) (subs : List Subscription) :
    PollSummary × List StockEvent :=
  let events := parseDwrFishStockingHtml hash now html
  let (insertedCount, newOnes, store') := insertNewEvents store events
  let messages :=
    (newOnes.map fun ev =>
      subs.filterMap fun sub =>
        if sub.expo_push_token = "" then none
        else if matchesSubscription ev sub then
          let n := formatNotification ev
          some { toTok := sub.expo_push_token, title := n.title, body := n.body,
                 eventId := n.eventId }
        else none).flatten
  let finalMsgs := dedupMsgs messages
  ({ parsed := events.length
     inserted := insertedCount
     subscriptions := subs.length
     matchedMessages := finalMsgs.length
     pushed := finalMsgs.length
     messages := finalMsgs }, store')

/-- The HTML page of the end-to-end scenario. -/
def scenarioHtml : String :=
  "<tr><td>Blue Lake</td><td>Wasatch</td><td>Rainbow Trout</td><td>1,200</td><td>10.5</td><td>3/4/2026</td></tr>"

/-- The subscription of the end-to-end scenario. -/
def scenarioSub : Subscription :=
  { expo_push_token := "TOK1", counties := ["WASATCH"], species := [], waters := [] }


/-! ### Definitions taken from the specification's words

These restate what the spec *claims* the code does, for comparison with
the definitions above (which are translated from the source). -/

/-- The fingerprint as §4.2 of the spec describes it: water name, county,
species, quantity (empty if absent), average length (empty if absent),
normalized date, joined with the fixed delimiter. -/
def claimFingerprint (e : StockEvent) : String :=
  e.water_name ++ "|" ++ e.county ++ "|" ++ e.species ++ "|" ++
    optNatStr e.quantity ++ "|" ++ optDecStr e.avg_length ++ "|" ++ e.date_stocked

/-- The six fingerprint constituents of an event, in the spec's fixed order. -/
def fpFields (e : StockEvent) : List String :=
  [e.water_name, e.county, e.species, optNatStr e.quantity, optDecStr e.avg_length,
   e.date_stocked]

/-- C3's reading of `insertedCount`: the number of events in the batch whose
`id` was not already stored before the call. -/
def claimedInsertCount (store batch : List StockEvent) : Nat :=
  (batch.filter fun e => !(store.any fun r => r.id == e.id)).length

/-- The events of a batch that are genuinely new in this call: their `id` is
neither in the store nor carried by an earlier batch event already accepted. -/
def freshOnes (store : List StockEvent) : List StockEvent → List StockEvent
  | [] => []
  | e :: es =>
    if store.any (fun r => r.id == e.id) then freshOnes store es
    else e :: freshOnes (store ++ [e]) es

/-- One matching dimension as §4.4 of the spec describes it: an empty filter
set always matches; a non-empty one matches only by exact membership of the
uppercased, trimmed event value. -/
def DimMatch (filt : List String) (v : String) : Prop :=
  filt = [] ∨ upTrim v ∈ filt.map upTrim

/-- Predicate: `s` contains the date pattern `M[M]/D[D]/YYYY` somewhere (the spec's
description of what `normalizeDate` matches). -/
def HasDatePattern (s : String) : Prop :=
  ∃ p m d y q, s.data = p ++ m ++ '/' :: d ++ '/' :: y ++ q ∧
    (m.length = 1 ∨ m.length = 2) ∧ m.all Char.isDigit = true ∧
    (d.length = 1 ∨ d.length = 2) ∧ d.all Char.isDigit = true ∧
    y.length = 4 ∧ y.all Char.isDigit = true

/-! ### Concrete fixtures used by counterexamples and witnesses -/

/-- The candidate lines of the spec's free-text alignment test. -/
def alignLines : List String :=
  ["Blue Lake", "Wasatch", "3/4/2026", "Body of Water", "Green Lake", "Summit", "3/5/2026"]

/-- A concrete event used to exercise the store contract. -/
def evA : StockEvent :=
  { id := "idA", water_name := "Blue Lake", county := "WASATCH", species := "TROUT",
    quantity := none, avg_length := none, date_stocked := "2026-03-04",
    first_seen_at := "2026-03-05T00:00:00.000Z" }

/-- A second concrete event with a distinct `id`. -/
def evB : StockEvent :=
  { id := "idB", water_name := "Green Lake", county := "SUMMIT", species := "TROUT",
    quantity := none, avg_length := none, date_stocked := "2026-03-05",
    first_seen_at := "2026-03-06T00:00:00.000Z" }

/-- Copy of `evA` with only the county changed (used to exercise fingerprint
distinctness on a single-field difference). -/
def evC : StockEvent :=
  { id := "idC", water_name := "Blue Lake", county := "SUMMIT", species := "TROUT",
    quantity := none, avg_length := none, date_stocked := "2026-03-04",
    first_seen_at := "2026-03-05T00:00:00.000Z" }

/-! ### Helper lemmas -/

theorem char_toNat_ofNat (n : Nat) (h : n.isValidChar) : (Char.ofNat n).toNat = n := by
  simp only [Char.ofNat, h, dif_pos, Char.ofNatAux, Char.toNat, UInt32.toNat]
  rfl

theorem jsCharUpper_idem (c : Char) : jsCharUpper (jsCharUpper c) = jsCharUpper c := by
  unfold jsCharUpper
  by_cases h : 97 ≤ c.toNat ∧ c.toNat ≤ 122
  · rw [if_pos h]
    have hv : (c.toNat - 32).isValidChar := Or.inl (by omega)
    have hcond : ¬(97 ≤ (Char.ofNat (c.toNat - 32)).toNat ∧
        (Char.ofNat (c.toNat - 32)).toNat ≤ 122) := by
      rw [char_toNat_ofNat _ hv]; omega
    exact if_neg hcond
  · simp only [if_neg h]

theorem jsToUpper_idem (s : String) : jsToUpper (jsToUpper s) = jsToUpper s := by
  show String.mk ((s.data.map jsCharUpper).map jsCharUpper) = String.mk (s.data.map jsCharUpper)
  rw [List.map_map]
  exact congrArg String.mk (List.map_congr_left fun a _ => jsCharUpper_idem a)

theorem any_id_iff (store : List StockEvent) (x : String) :
    (store.any fun r => r.id == x) = true ↔ x ∈ store.map (·.id) := by
  simp only [List.any_eq_true, beq_iff_eq, List.mem_map]

theorem searchDate_ne_none_of_isDateSearch :
    ∀ (cs : List Char) (prev : Option Char),
      isDateSearch prev cs = true → searchDate cs ≠ none := by
  intro cs
  induction cs with
  | nil => intro prev h; simp [isDateSearch] at h
  | cons c cs ih =>
    intro prev h
    have h' : (boundaryOk prev && dateHereOk (c :: cs)) = true ∨
        isDateSearch (some c) cs = true := by
      simpa [isDateSearch] using h
    rcases h' with hl | hr
    · have hd : dateHereOk (c :: cs) = true := by
        rw [Bool.and_eq_true] at hl
        exact hl.2
      cases hm : matchDateAt (c :: cs) with
      | none => simp [dateHereOk, hm] at hd
      | some t =>
        obtain ⟨m, d, y, r⟩ := t
        simp [searchDate, hm]
    · have := ih (some c) hr
      cases hm : matchDateAt (c :: cs) with
      | none => simpa [searchDate, hm] using this
      | some t => obtain ⟨m, d, y, r⟩ := t; simp [searchDate, hm]

theorem normalizeDate_ne_empty_of_isDate (s : String) (h : isDate s = true) :
    normalizeDate s ≠ "" := by
  have hne := searchDate_ne_none_of_isDateSearch s.data none h
  cases hs : searchDate s.data with
  | none => exact absurd hs hne
  | some t =>
    obtain ⟨m, d, y⟩ := t
    unfold normalizeDate
    rw [hs]
    intro he
    have hlen := congrArg (fun t => t.data.length) he
    simp only [String.data_append, List.length_append] at hlen
    simp at hlen

theorem dedupById_go_subset :
    ∀ (l : List StockEvent) (seen : List String) (e : StockEvent),
      e ∈ dedupByIdGo seen l → e ∈ l := by
  intro l
  induction l with
  | nil => intro seen e h; simp [dedupByIdGo] at h
  | cons x xs ih =>
    intro seen e h
    rw [dedupByIdGo] at h
    by_cases hc : seen.contains x.id
    · rw [if_pos hc] at h
      exact List.mem_cons_of_mem x (ih seen e h)
    · rw [if_neg hc] at h
      rcases List.mem_cons.mp h with h1 | h2
      · exact h1 ▸ List.mem_cons_self x xs
      · exact List.mem_cons_of_mem x (ih (x.id :: seen) e h2)

theorem dedupById_subset (l : List StockEvent) (e : StockEvent) :
    e ∈ dedupById l → e ∈ l :=
  dedupById_go_subset l [] e

theorem coWalk_cons_eq (hash : String → String) (now a b c : String) (rest : List String) :
    coWalk hash now (a :: b :: c :: rest) =
      if jsTrim a = "" ∨ jsTrim b = "" ∨ jsTrim c = "" then coWalk hash now (b :: c :: rest)
      else if isBadLine (jsTrim a) || isBadLine (jsTrim b) || isBadLine (jsTrim c) then
        coWalk hash now (b :: c :: rest)
      else if isDate (jsTrim a) || isDate (jsTrim b) || !isDate (jsTrim c) then
        coWalk hash now (b :: c :: rest)
      else if normalizeDate (jsTrim c) = "" then coWalk hash now (b :: c :: rest)
      else mkCoEvent hash now (jsTrim a) (jsTrim b) (normalizeDate (jsTrim c)) ::
        coWalk hash now rest := rfl

theorem coWalk_shape (hash : String → String) (now : String) :
    ∀ (lines : List String) (e : StockEvent), e ∈ coWalk hash now lines →
      ∃ a b d, e = mkCoEvent hash now a b d
  | [] => by
    intro e h
    exact absurd h (List.not_mem_nil e)
  | [a] => by
    intro e h
    exact absurd h (List.not_mem_nil e)
  | [a, b] => by
    intro e h
    exact absurd h (List.not_mem_nil e)
  | a :: b :: c :: rest => by
    intro e h
    rw [coWalk_cons_eq] at h
    split at h
    · exact coWalk_shape hash now (b :: c :: rest) e h
    · split at h
      · exact coWalk_shape hash now (b :: c :: rest) e h
      · split at h
        · exact coWalk_shape hash now (b :: c :: rest) e h
        · split at h
          · exact coWalk_shape hash now (b :: c :: rest) e h
          · rcases List.mem_cons.mp h with h1 | h2
            · exact ⟨jsTrim a, jsTrim b, normalizeDate (jsTrim c), h1⟩
            · exact coWalk_shape hash now rest e h2

/-! ### Claim theorems -/

/-- C6: `matchesSubscription` is the conjunction of the three dimension
checks, where an empty filter set is a wildcard and a non-empty one matches
only by exact membership of the uppercased, trimmed value; in particular a
`["WASATCH"]` county filter rejects a `"SUMMIT"` county event. -/
theorem claim6_matcher_and_of_wildcards :
    (∀ (e : StockEvent) (sub : Subscription),
      matchesSubscription e sub = true ↔
        (DimMatch sub.counties e.county ∧ DimMatch sub.species e.species ∧
         DimMatch sub.waters e.water_name)) ∧
    matchesSubscription
      { id := "x", water_name := "Some Lake", county := "SUMMIT", species := "TROUT",
        quantity := none, avg_length := none, date_stocked := "2026-01-01",
        first_seen_at := "T" }
      { expo_push_token := "TOK1", counties := ["WASATCH"], species := [],
        waters := [] } = false := by
  constructor
  · intro e sub
    simp only [matchesSubscription, DimMatch, Bool.and_eq_true, Bool.or_eq_true,
      List.isEmpty_iff, List.map_eq_nil_iff]
    simp
    tauto
  · decide

/-- C6 witness: the matcher equivalence applied at a concrete event
and subscription. -/
theorem claim6_witness :
    DimMatch ([] : List String) "WASATCH" ∧ DimMatch ([] : List String) "TROUT" ∧
      DimMatch ([] : List String) "Blue Lake" :=
  (claim6_matcher_and_of_wildcards.1
    { id := "x", water_name := "Blue Lake", county := "WASATCH", species := "TROUT",
      quantity := none, avg_length := none, date_stocked := "2026-01-01",
      first_seen_at := "T" }
    { expo_push_token := "TOK1", counties := [], species := [], waters := [] }).mp
    (by decide)

/-- C7: ingest is idempotent in the event `id`: inserting the same event
through two separate calls yields one insertion in total, leaves the store
unchanged on the second call, and stores exactly one record with that `id`. -/
theorem claim7_idempotent_ingest (store : List StockEvent) (e : StockEvent)
    (h : (store.any fun r => r.id == e.id) = false) :
    (insertNewEvents store [e]).1 +
      (insertNewEvents (insertNewEvents store [e]).2.2 [e]).1 = 1 ∧
    (insertNewEvents (insertNewEvents store [e]).2.2 [e]).2.2 =
      (insertNewEvents store [e]).2.2 ∧
    ((insertNewEvents store [e]).2.2.filter fun r => r.id == e.id) = [e] := by
  have h2 : ((store ++ [e]).any fun r => r.id == e.id) = true := by
    simp [List.any_append]
  have hstore : (store.filter fun r => r.id == e.id) = [] := by
    rw [List.filter_eq_nil_iff]
    intro a ha
    simpa using List.any_eq_false.mp h a ha
  refine ⟨?_, ?_, ?_⟩
  · simp [insertNewEvents, insertLoop, h, h2]
  · simp [insertNewEvents, insertLoop, h, h2]
  · simp [insertNewEvents, insertLoop, h, List.filter_append, hstore]

/-- C7 witness: both insert calls evaluated on the empty store. -/
theorem claim7_witness :
    (insertNewEvents [] [evA]).1 + (insertNewEvents (insertNewEvents [] [evA]).2.2 [evA]).1 = 1 ∧
    (insertNewEvents (insertNewEvents [] [evA]).2.2 [evA]).2.2 = (insertNewEvents [] [evA]).2.2 ∧
    (((insertNewEvents [] [evA]).2.2).filter fun r => r.id == evA.id) = [evA] :=
  claim7_idempotent_ingest [] evA (by decide)

/-- C10: `formatNotification` decides the optional parts by JS truthiness:
a present-but-zero quantity renders like an absent one ("Fish stocked"), and a
zero average length drops the length suffix. -/
theorem claim10_zero_truthiness :
    (∀ e : StockEvent, e.quantity = some 0 →
        formatNotification e = formatNotification { e with quantity := none }) ∧
    (∀ (e : StockEvent) (d : Dec), e.avg_length = some d → d.truthy = false →
        formatNotification e = formatNotification { e with avg_length := none }) ∧
    (formatNotification
      { id := "z", water_name := "Blue Lake", county := "WASATCH", species := "TROUT",
        quantity := some 0, avg_length := some ⟨0, []⟩, date_stocked := "2026-03-04",
        first_seen_at := "T" }).body = "Blue Lake (WASATCH) — Fish stocked — 2026-03-04" := by
  refine ⟨?_, ?_, by decide⟩
  · intro e h
    simp [formatNotification, h]
  · intro e d h ht
    simp [formatNotification, h, ht]

/-- C10 witness: the truthiness equations applied to a concrete event with
zero quantity and zero average length. -/
theorem claim10_witness :
    formatNotification
        { id := "z", water_name := "L", county := "C", species := "S",
          quantity := some 0, avg_length := some ⟨0, ['0']⟩, date_stocked := "D",
          first_seen_at := "T" } =
      formatNotification
        { id := "z", water_name := "L", county := "C", species := "S",
          quantity := none, avg_length := some ⟨0, ['0']⟩, date_stocked := "D",
          first_seen_at := "T" } ∧
    formatNotification
        { id := "z", water_name := "L", county := "C", species := "S",
          quantity := some 0, avg_length := some ⟨0, ['0']⟩, date_stocked := "D",
          first_seen_at := "T" } =
      formatNotification
        { id := "z", water_name := "L", county := "C", species := "S",
          quantity := some 0, avg_length := none, date_stocked := "D",
          first_seen_at := "T" } :=
  ⟨claim10_zero_truthiness.1 _ rfl, claim10_zero_truthiness.2.1 _ ⟨0, ['0']⟩ rfl (by decide)⟩

/-- C2 counterexample: in the end-to-end scenario the single message body
does **not** contain `Blue Lake (WASATCH) — …` — the tabular extractor keeps
the county's source casing, so the body reads `(Wasatch)`. -/
theorem claim2_counterexample :
    ((runPollOnce idHash "T" scenarioHtml [] [scenarioSub]).1.messages).map
      (fun m => strContains m.body
        "Blue Lake (WASATCH) — 1,200 fish • 10.5\" avg — 2026-03-04") = [false] := by
  decide

/-- C2 (amended): the end-to-end scenario yields `inserted = 1`,
`matchedMessages = 1`, and the single body contains
`Blue Lake (Wasatch) — 1,200 fish • 10.5" avg — 2026-03-04`
(the county keeps its source casing). -/
theorem claim2_amended_scenario :
    (runPollOnce idHash "T" scenarioHtml [] [scenarioSub]).1.inserted = 1 ∧
    (runPollOnce idHash "T" scenarioHtml [] [scenarioSub]).1.matchedMessages = 1 ∧
    ((runPollOnce idHash "T" scenarioHtml [] [scenarioSub]).1.messages).map
      (fun m => strContains m.body
        "Blue Lake (Wasatch) — 1,200 fish • 10.5\" avg — 2026-03-04") = [true] := by
  refine ⟨by decide, by decide, by decide⟩

/-- C4 counterexample: the tabular extractor emits the county exactly as
written in the cell — `"Wasatch"`, which is not uppercased. -/
theorem claim4_counterexample :
    (parseDwrFishStockingHtml idHash "T" scenarioHtml).map (·.county) = ["Wasatch"] ∧
    jsToUpper "Wasatch" ≠ "Wasatch" := by
  refine ⟨by decide, by decide⟩

/-- C4 (amended): only the free-text extractor uppercases: its events have
uppercase-invariant county and species (species is the constant `"TROUT"`);
the tabular extractor copies county and species verbatim from the cleaned
cells, with no case normalization. -/
theorem claim4_amended_casing :
    (∀ (hash : String → String) (now : String) (lines : List String) (e : StockEvent),
        e ∈ coEventsFromLines hash now lines →
        e.county = jsToUpper e.county ∧ e.species = "TROUT" ∧
          e.species = jsToUpper e.species) ∧
    (∀ (hash : String → String) (now t0 t1 t2 t3 t4 t5 : String) (e : StockEvent),
        dwrRowFromTds hash now [t0, t1, t2, t3, t4, t5] = some e →
        e.county = stripTags t1 ∧ e.species = stripTags t2) := by
  constructor
  · intro hash now lines e hmem
    obtain ⟨a, b, d, rfl⟩ :=
      coWalk_shape hash now lines e (dedupById_subset _ e hmem)
    refine ⟨?_, rfl, ?_⟩
    · show jsToUpper b = jsToUpper (jsToUpper b)
      exact (jsToUpper_idem b).symm
    · show ("TROUT" : String) = jsToUpper "TROUT"
      decide
  · intro hash now t0 t1 t2 t3 t4 t5 e h
    rw [show dwrRowFromTds hash now [t0, t1, t2, t3, t4, t5] =
        (if stripTags t0 = "" ∨ stripTags t1 = "" ∨ stripTags t2 = "" ∨
            normalizeDate (stripTags t5) = "" then none
         else some
          { id := hash (dwrFingerprint (stripTags t0) (stripTags t1) (stripTags t2)
              (parseIntDigits (stripTags t3)) (parseFloatClean (stripTags t4))
              (normalizeDate (stripTags t5)))
            water_name := stripTags t0
            county := stripTags t1
            species := stripTags t2
            quantity := parseIntDigits (stripTags t3)
            avg_length := parseFloatClean (stripTags t4)
            date_stocked := normalizeDate (stripTags t5)
            first_seen_at := now }) from rfl] at h
    split at h
    · exact absurd h (by simp)
    · obtain rfl := (Option.some.injEq _ _).mp h
      exact ⟨rfl, rfl⟩

/-- C4 amended witness: both halves applied at a concrete extraction. -/
theorem claim4_amended_witness :
    (∀ e ∈ coEventsFromLines idHash "T" ["Blue Lake", "Wasatch", "3/4/2026"],
        e.county = jsToUpper e.county) ∧
    (∀ e, dwrRowFromTds idHash "T"
        ["<td>L</td>", "<td>Wasatch</td>", "<td>Trout</td>", "<td></td>", "<td></td>",
         "<td>3/4/2026</td>"] = some e → e.county = "Wasatch") := by
  constructor
  · intro e he
    exact (claim4_amended_casing.1 idHash "T" _ e he).1
  · intro e he
    have := (claim4_amended_casing.2 idHash "T" _ _ _ _ _ _ e he).1
    rw [this]
    decide

/-- Unfolding of `dwrRowFromTds` on a six-cell row. -/
theorem dwrRowFromTds_six (hash : String → String) (now t0 t1 t2 t3 t4 t5 : String) :
    dwrRowFromTds hash now [t0, t1, t2, t3, t4, t5] =
      (if stripTags t0 = "" ∨ stripTags t1 = "" ∨ stripTags t2 = "" ∨
          normalizeDate (stripTags t5) = "" then none
       else some
        { id := hash (dwrFingerprint (stripTags t0) (stripTags t1) (stripTags t2)
            (parseIntDigits (stripTags t3)) (parseFloatClean (stripTags t4))
            (normalizeDate (stripTags t5)))
          water_name := stripTags t0
          county := stripTags t1
          species := stripTags t2
          quantity := parseIntDigits (stripTags t3)
          avg_length := parseFloatClean (stripTags t4)
          date_stocked := normalizeDate (stripTags t5)
          first_seen_at := now }) := rfl

/-- C8: tabular row boundaries — a row with fewer than six cells is
dropped; a six-cell row whose water, county, species clean to non-empty text
and whose date cell normalizes is accepted (quantity and length optional);
and a six-cell row whose water name cleans to empty is dropped. -/
theorem claim8_row_boundaries :
    (∀ (hash : String → String) (now : String) (tds : List String),
        tds.length < 6 → dwrRowFromTds hash now tds = none) ∧
    (∀ (hash : String → String) (now t0 t1 t2 t3 t4 t5 : String),
        stripTags t0 ≠ "" → stripTags t1 ≠ "" → stripTags t2 ≠ "" →
        normalizeDate (stripTags t5) ≠ "" →
        ∃ e, dwrRowFromTds hash now [t0, t1, t2, t3, t4, t5] = some e) ∧
    (∀ (hash : String → String) (now t0 t1 t2 t3 t4 t5 : String),
        stripTags t0 = "" →
        dwrRowFromTds hash now [t0, t1, t2, t3, t4, t5] = none) := by
  refine ⟨?_, ?_, ?_⟩
  · intro hash now tds h
    simp [dwrRowFromTds, h]
  · intro hash now t0 t1 t2 t3 t4 t5 h0 h1 h2 h5
    rw [dwrRowFromTds_six]
    rw [if_neg (by simp [h0, h1, h2, h5])]
    exact ⟨_, rfl⟩
  · intro hash now t0 t1 t2 t3 t4 t5 h0
    rw [dwrRowFromTds_six]
    rw [if_pos (Or.inl h0)]

/-- C8 witness: the three row boundaries exercised on concrete rows. -/
theorem claim8_witness :
    dwrRowFromTds idHash "T" ["<td>a</td>", "<td>b</td>", "<td>c</td>", "<td>d</td>",
      "<td>e</td>"] = none ∧
    (∃ e, dwrRowFromTds idHash "T" ["<td>a</td>", "<td>b</td>", "<td>c</td>", "<td></td>",
      "<td></td>", "<td>3/4/2026</td>"] = some e) ∧
    dwrRowFromTds idHash "T" ["<td></td>", "<td>b</td>", "<td>c</td>", "<td>1</td>",
      "<td>2</td>", "<td>3/4/2026</td>"] = none :=
  ⟨claim8_row_boundaries.1 idHash "T" _ (by decide),
   claim8_row_boundaries.2.1 idHash "T" _ _ _ _ _ _ (by decide) (by decide) (by decide)
     (by decide),
   claim8_row_boundaries.2.2 idHash "T" _ _ _ _ _ _ (by decide)⟩

/-- C5: the free-text sliding-window walk — a triple is accepted exactly
when none of its three (cleaned, non-empty) lines is a recognized label, the
first two are not date-shaped and the third is; acceptance consumes three
lines, rejection slides by one; and on the spec's seven-line example the walk
recovers exactly the two events dated `2026-03-04` and `2026-03-05`. -/
theorem claim5_triple_walk :
    (coEventsFromLines idHash "T" alignLines).map (·.date_stocked) =
      ["2026-03-04", "2026-03-05"] ∧
    (∀ (hash : String → String) (now a b c : String) (rest : List String),
        jsTrim a ≠ "" → jsTrim b ≠ "" → jsTrim c ≠ "" →
        isBadLine (jsTrim a) = false → isBadLine (jsTrim b) = false →
        isBadLine (jsTrim c) = false →
        isDate (jsTrim a) = false → isDate (jsTrim b) = false → isDate (jsTrim c) = true →
        coWalk hash now (a :: b :: c :: rest) =
          mkCoEvent hash now (jsTrim a) (jsTrim b) (normalizeDate (jsTrim c)) ::
            coWalk hash now rest) ∧
    (∀ (hash : String → String) (now a b c : String) (rest : List String),
        (isBadLine (jsTrim a) || isBadLine (jsTrim b) || isBadLine (jsTrim c) ||
          isDate (jsTrim a) || isDate (jsTrim b) || !isDate (jsTrim c)) = true →
        coWalk hash now (a :: b :: c :: rest) = coWalk hash now (b :: c :: rest)) := by
  refine ⟨by decide, ?_, ?_⟩
  · intro hash now a b c rest ha hb hc hba hbb hbc hda hdb hdc
    rw [coWalk_cons_eq]
    rw [if_neg (by simp [ha, hb, hc])]
    rw [if_neg (by simp [hba, hbb, hbc])]
    rw [if_neg (by simp [hda, hdb, hdc])]
    rw [if_neg (normalizeDate_ne_empty_of_isDate _ hdc)]
  · intro hash now a b c rest hrej
    rw [coWalk_cons_eq]
    split
    · rfl
    · split
      · rfl
      · split
        · rfl
        · split
          · rfl
          · exfalso
            next h1 h2 h3 h4 =>
              simp only [Bool.or_eq_true, not_or, Bool.not_eq_true] at h2 h3 hrej
              obtain ⟨⟨h2a, h2b⟩, h2c⟩ := h2
              obtain ⟨⟨h3a, h3b⟩, h3c⟩ := h3
              simp [h2a, h2b, h2c, h3a, h3b, h3c] at hrej

/-- C5 witness: the accept and reject equations applied at the example's
first triple and at the misaligned header triple. -/
theorem claim5_witness :
    coWalk idHash "T" ["Blue Lake", "Wasatch", "3/4/2026"] =
      mkCoEvent idHash "T" "Blue Lake" "Wasatch" "2026-03-04" :: coWalk idHash "T" [] ∧
    coWalk idHash "T" ["3/4/2026", "Body of Water", "Green Lake", "Summit", "3/5/2026"] =
      coWalk idHash "T" ["Body of Water", "Green Lake", "Summit", "3/5/2026"] := by
  constructor
  · have := claim5_triple_walk.2.1 idHash "T" "Blue Lake" "Wasatch" "3/4/2026" []
      (by decide) (by decide) (by decide) (by decide) (by decide) (by decide)
      (by decide) (by decide) (by decide)
    simpa using this
  · exact claim5_triple_walk.2.2 idHash "T" "3/4/2026" "Body of Water" "Green Lake"
      ["Summit", "3/5/2026"] (by decide)

/-! ### Soundness of the date-pattern matcher -/

theorem takeDigitsN_sound :
    ∀ (n : Nat) (cs ds r : List Char), takeDigitsN n cs = some (ds, r) →
      cs = ds ++ r ∧ ds.length = n ∧ ds.all Char.isDigit = true := by
  intro n
  induction n with
  | zero =>
    intro cs ds r h
    simp [takeDigitsN] at h
    obtain ⟨rfl, rfl⟩ := h
    simp
  | succ n ih =>
    intro cs ds r h
    cases cs with
    | nil => simp [takeDigitsN] at h
    | cons c cs' =>
      rw [takeDigitsN] at h
      by_cases hd : c.isDigit
      · rw [if_pos hd] at h
        cases ht : takeDigitsN n cs' with
        | none => rw [ht] at h; simp at h
        | some p =>
          obtain ⟨ds', r'⟩ := p
          rw [ht] at h
          dsimp only at h
          simp only [Option.some.injEq, Prod.mk.injEq] at h
          obtain ⟨hds, hr⟩ := h
          subst hds
          subst hr
          obtain ⟨h1, h2, h3⟩ := ih cs' ds' r' ht
          subst h1
          simp [h2, h3, hd]
      · rw [if_neg hd] at h; simp at h

theorem matchSlash_sound (cs r : List Char) (h : matchSlash cs = some r) :
    cs = '/' :: r := by
  cases cs with
  | nil => simp [matchSlash] at h
  | cons c cs' =>
    rw [matchSlash] at h
    by_cases hc : c = '/'
    · rw [if_pos hc] at h
      simp only [Option.some.injEq] at h
      rw [hc, h]
    · rw [if_neg hc] at h
      simp at h

theorem tailBranch_sound (n : Nat) (cs d y r : List Char)
    (h : tailBranch n cs = some (d, y, r)) :
    cs = d ++ '/' :: y ++ r ∧ d.length = n ∧ d.all Char.isDigit = true ∧
      y.length = 4 ∧ y.all Char.isDigit = true := by
  unfold tailBranch at h
  cases h1 : takeDigitsN n cs with
  | none => rw [h1] at h; simp at h
  | some p =>
    obtain ⟨d', r1⟩ := p
    rw [h1] at h
    dsimp only at h
    cases h2 : matchSlash r1 with
    | none => rw [h2] at h; simp at h
    | some r2 =>
      rw [h2] at h
      dsimp only at h
      cases h3 : takeDigitsN 4 r2 with
      | none => rw [h3] at h; simp at h
      | some q =>
        obtain ⟨y', r3⟩ := q
        rw [h3] at h
        dsimp only at h
        simp only [Option.some.injEq, Prod.mk.injEq] at h
        obtain ⟨rfl, rfl, rfl⟩ := h
        obtain ⟨hc1, hl1, hd1⟩ := takeDigitsN_sound n cs _ _ h1
        have hc2 := matchSlash_sound r1 _ h2
        obtain ⟨hc3, hl3, hd3⟩ := takeDigitsN_sound 4 r2 _ _ h3
        refine ⟨?_, hl1, hd1, hl3, hd3⟩
        rw [hc1, hc2, hc3]
        simp

theorem matchTail_sound (cs d y r : List Char) (h : matchTail cs = some (d, y, r)) :
    cs = d ++ '/' :: y ++ r ∧ (d.length = 1 ∨ d.length = 2) ∧ d.all Char.isDigit = true ∧
      y.length = 4 ∧ y.all Char.isDigit = true := by
  unfold matchTail at h
  cases hb : tailBranch 2 cs with
  | some t =>
    rw [hb] at h
    simp only [Option.orElse] at h
    simp only [Option.some.injEq] at h
    subst h
    obtain ⟨hc, hl, hd, hy, hyd⟩ := tailBranch_sound 2 cs d y r hb
    exact ⟨hc, Or.inr hl, hd, hy, hyd⟩
  | none =>
    rw [hb] at h
    simp only [Option.orElse] at h
    obtain ⟨hc, hl, hd, hy, hyd⟩ := tailBranch_sound 1 cs d y r h
    exact ⟨hc, Or.inl hl, hd, hy, hyd⟩

theorem dateBranch_sound (n : Nat) (cs m d y r : List Char)
    (h : dateBranch n cs = some (m, d, y, r)) :
    cs = m ++ '/' :: d ++ '/' :: y ++ r ∧ m.length = n ∧ m.all Char.isDigit = true ∧
      (d.length = 1 ∨ d.length = 2) ∧ d.all Char.isDigit = true ∧
      y.length = 4 ∧ y.all Char.isDigit = true := by
  unfold dateBranch at h
  cases h1 : takeDigitsN n cs with
  | none => rw [h1] at h; simp at h
  | some p =>
    obtain ⟨m', r1⟩ := p
    rw [h1] at h
    dsimp only at h
    cases h2 : matchSlash r1 with
    | none => rw [h2] at h; simp at h
    | some r2 =>
      rw [h2] at h
      dsimp only at h
      cases h3 : matchTail r2 with
      | none => rw [h3] at h; simp at h
      | some q =>
        obtain ⟨d', y', r3⟩ := q
        rw [h3] at h
        dsimp only at h
        simp only [Option.some.injEq, Prod.mk.injEq] at h
        obtain ⟨rfl, rfl, rfl, rfl⟩ := h
        obtain ⟨hc1, hl1, hd1⟩ := takeDigitsN_sound n cs _ _ h1
        have hc2 := matchSlash_sound r1 _ h2
        obtain ⟨hc3, hdl, hdd, hyl, hyd⟩ := matchTail_sound r2 _ _ _ h3
        refine ⟨?_, hl1, hd1, hdl, hdd, hyl, hyd⟩
        rw [hc1, hc2, hc3]
        simp

theorem matchDateAt_sound (cs m d y r : List Char)
    (h : matchDateAt cs = some (m, d, y, r)) :
    cs = m ++ '/' :: d ++ '/' :: y ++ r ∧ (m.length = 1 ∨ m.length = 2) ∧
      m.all Char.isDigit = true ∧ (d.length = 1 ∨ d.length = 2) ∧
      d.all Char.isDigit = true ∧ y.length = 4 ∧ y.all Char.isDigit = true := by
  unfold matchDateAt at h
  cases hb : dateBranch 2 cs with
  | some t =>
    rw [hb] at h
    simp only [Option.orElse] at h
    simp only [Option.some.injEq] at h
    subst h
    obtain ⟨hc, hl, hmd, hdl, hdd, hyl, hyd⟩ := dateBranch_sound 2 cs m d y r hb
    exact ⟨hc, Or.inr hl, hmd, hdl, hdd, hyl, hyd⟩
  | none =>
    rw [hb] at h
    simp only [Option.orElse] at h
    obtain ⟨hc, hl, hmd, hdl, hdd, hyl, hyd⟩ := dateBranch_sound 1 cs m d y r h
    exact ⟨hc, Or.inl hl, hmd, hdl, hdd, hyl, hyd⟩

theorem searchDate_sound :
    ∀ (cs m d y : List Char), searchDate cs = some (m, d, y) →
      ∃ p r, cs = p ++ m ++ '/' :: d ++ '/' :: y ++ r ∧ (m.length = 1 ∨ m.length = 2) ∧
        m.all Char.isDigit = true ∧ (d.length = 1 ∨ d.length = 2) ∧
        d.all Char.isDigit = true ∧ y.length = 4 ∧ y.all Char.isDigit = true := by
  intro cs
  induction cs with
  | nil => intro m d y h; simp [searchDate] at h
  | cons c cs' ih =>
    intro m d y h
    rw [show searchDate (c :: cs') =
        (match matchDateAt (c :: cs') with
         | some (m, d, y, _) => some (m, d, y)
         | none => searchDate cs') from rfl] at h
    cases hm : matchDateAt (c :: cs') with
    | some t =>
      obtain ⟨m', d', y', r⟩ := t
      rw [hm] at h
      simp only [Option.some.injEq, Prod.mk.injEq] at h
      obtain ⟨rfl, rfl, rfl⟩ := h
      obtain ⟨hc, hp⟩ := And.intro (matchDateAt_sound _ _ _ _ _ hm).1
        (matchDateAt_sound _ _ _ _ _ hm).2
      exact ⟨[], r, by simpa using hc, hp⟩
    | none =>
      rw [hm] at h
      obtain ⟨p, r, hc, hp⟩ := ih m d y h
      exact ⟨c :: p, r, by simp [hc], hp⟩

/-- A string containing the date pattern contains a slash. -/
theorem hasDatePattern_slash {s : String} (h : HasDatePattern s) : '/' ∈ s.data := by
  obtain ⟨p, m, d, y, q, heq, _⟩ := h
  rw [heq]
  simp

/-- C9: `normalizeDate` matches `M[M]/D[D]/YYYY`, zero-pads month and day
and reassembles as `YYYY-MM-DD` with no calendar validation (`"3/4/2026" ↦
"2026-03-04"`, `"13/40/2026" ↦ "2026-13-40"`); a string containing no such
pattern yields the empty result. -/
theorem claim9_date_normalization :
    normalizeDate "3/4/2026" = "2026-03-04" ∧
    normalizeDate "13/40/2026" = "2026-13-40" ∧
    (∀ s : String, ¬ HasDatePattern s → normalizeDate s = "") ∧
    (∀ s : String, normalizeDate s ≠ "" →
      ∃ m d y p r, s.data = p ++ m ++ '/' :: d ++ '/' :: y ++ r ∧
        (m.length = 1 ∨ m.length = 2) ∧ m.all Char.isDigit = true ∧
        (d.length = 1 ∨ d.length = 2) ∧ d.all Char.isDigit = true ∧
        y.length = 4 ∧ y.all Char.isDigit = true ∧
        normalizeDate s =
          String.mk y ++ "-" ++ pad2 (String.mk m) ++ "-" ++ pad2 (String.mk d)) := by
  refine ⟨by decide, by decide, ?_, ?_⟩
  · intro s hnp
    cases hs : searchDate s.data with
    | none => unfold normalizeDate; rw [hs]
    | some t =>
      obtain ⟨m, d, y⟩ := t
      obtain ⟨p, r, hc, hp⟩ := searchDate_sound s.data m d y hs
      exact absurd ⟨p, m, d, y, r, hc, hp⟩ hnp
  · intro s hne
    cases hs : searchDate s.data with
    | none =>
      exfalso
      apply hne
      unfold normalizeDate
      rw [hs]
    | some t =>
      obtain ⟨m, d, y⟩ := t
      obtain ⟨p, r, hc, hp1, hp2, hp3, hp4, hp5, hp6⟩ := searchDate_sound s.data m d y hs
      refine ⟨m, d, y, p, r, hc, hp1, hp2, hp3, hp4, hp5, hp6, ?_⟩
      unfold normalizeDate
      rw [hs]

/-- C9 witness: the no-pattern and pattern cases applied at `"xx"` and
`"3/4/2026"`. -/
theorem claim9_witness :
    normalizeDate "xx" = "" ∧
    (∃ m d y p r, ("3/4/2026" : String).data = p ++ m ++ '/' :: d ++ '/' :: y ++ r ∧
      (m.length = 1 ∨ m.length = 2) ∧ m.all Char.isDigit = true ∧
      (d.length = 1 ∨ d.length = 2) ∧ d.all Char.isDigit = true ∧
      y.length = 4 ∧ y.all Char.isDigit = true ∧
      normalizeDate "3/4/2026" =
        String.mk y ++ "-" ++ pad2 (String.mk m) ++ "-" ++ pad2 (String.mk d)) :=
  ⟨claim9_date_normalization.2.2.1 "xx"
      (fun hp => absurd (hasDatePattern_slash hp) (by decide)),
   claim9_date_normalization.2.2.2 "3/4/2026" (by decide)⟩

/-! ### The identifier scheme (C1) -/

/-- Joining six values with `"|"` separates them: if exactly one position
differs, the joined strings differ. -/
theorem fp_mid_ne (w c s q l d w' c' s' q' l' d' : String)
    (hcase :
      (w ≠ w' ∧ c = c' ∧ s = s' ∧ q = q' ∧ l = l' ∧ d = d') ∨
      (w = w' ∧ c ≠ c' ∧ s = s' ∧ q = q' ∧ l = l' ∧ d = d') ∨
      (w = w' ∧ c = c' ∧ s ≠ s' ∧ q = q' ∧ l = l' ∧ d = d') ∨
      (w = w' ∧ c = c' ∧ s = s' ∧ q ≠ q' ∧ l = l' ∧ d = d') ∨
      (w = w' ∧ c = c' ∧ s = s' ∧ q = q' ∧ l ≠ l' ∧ d = d') ∨
      (w = w' ∧ c = c' ∧ s = s' ∧ q = q' ∧ l = l' ∧ d ≠ d')) :
    w ++ "|" ++ c ++ "|" ++ s ++ "|" ++ q ++ "|" ++ l ++ "|" ++ d ≠
      w' ++ "|" ++ c' ++ "|" ++ s' ++ "|" ++ q' ++ "|" ++ l' ++ "|" ++ d' := by
  intro heq
  have hd2 := congrArg String.data heq
  simp only [String.data_append, List.append_assoc] at hd2
  rcases hcase with ⟨hne, rfl, rfl, rfl, rfl, rfl⟩ | ⟨rfl, hne, rfl, rfl, rfl, rfl⟩ |
    ⟨rfl, rfl, hne, rfl, rfl, rfl⟩ | ⟨rfl, rfl, rfl, hne, rfl, rfl⟩ |
    ⟨rfl, rfl, rfl, rfl, hne, rfl⟩ | ⟨rfl, rfl, rfl, rfl, rfl, hne⟩ <;>
  · simp only [List.append_right_inj, List.append_left_inj] at hd2
    exact hne (String.ext hd2)

/-- Any event produced from a six-cell row carries the hash of the
spec's fingerprint as its `id`. -/
theorem dwrRowFromTds_id (hash : String → String) (now : String) (tds : List String)
    (e : StockEvent) (h : dwrRowFromTds hash now tds = some e) :
    e.id = hash (claimFingerprint e) := by
  unfold dwrRowFromTds at h
  split at h
  · simp at h
  · dsimp only at h
    split at h
    · simp at h
    · obtain rfl := (Option.some.injEq _ _).mp h
      rfl

/-- C1 counterexample: the free-text extractor's `id` is not the hash
of the spec's six-value fingerprint: the fingerprint it hashes carries a
leading `CO` tag and omits the quantity/length slots. -/
theorem claim1_counterexample :
    (coEventsFromLines idHash "T" ["Blue Lake", "Wasatch", "3/4/2026"]).map
      (fun e => decide (e.id = idHash (claimFingerprint e))) = [false] := by
  decide

/-- C1 (amended): the tabular extractor hashes exactly the spec's
six-value fingerprint; the free-text extractor hashes
`CO|water|county|TROUT|date` (source tag, no quantity/length slots, species
constantly `"TROUT"`).  For either scheme the `id` is a deterministic
function of the fingerprint fields, and two events whose six fingerprint
values differ in exactly one position have different fingerprints — hence
different `id`s for any injective hash. -/
theorem claim1_fingerprint_scheme :
    (∀ (hash : String → String) (now html : String) (e : StockEvent),
        e ∈ parseDwrFishStockingHtml hash now html → e.id = hash (claimFingerprint e)) ∧
    (∀ (hash : String → String) (now : String) (lines : List String) (e : StockEvent),
        e ∈ coEventsFromLines hash now lines →
        e.species = "TROUT" ∧
        e.id = hash ("CO|" ++ e.water_name ++ "|" ++ e.county ++ "|TROUT|" ++
          e.date_stocked)) ∧
    (∀ e₁ e₂ : StockEvent, fpFields e₁ = fpFields e₂ →
        claimFingerprint e₁ = claimFingerprint e₂) ∧
    (∀ e₁ e₂ : StockEvent,
        ((e₁.water_name ≠ e₂.water_name ∧ e₁.county = e₂.county ∧
          e₁.species = e₂.species ∧ optNatStr e₁.quantity = optNatStr e₂.quantity ∧
          optDecStr e₁.avg_length = optDecStr e₂.avg_length ∧
          e₁.date_stocked = e₂.date_stocked) ∨
         (e₁.water_name = e₂.water_name ∧ e₁.county ≠ e₂.county ∧
          e₁.species = e₂.species ∧ optNatStr e₁.quantity = optNatStr e₂.quantity ∧
          optDecStr e₁.avg_length = optDecStr e₂.avg_length ∧
          e₁.date_stocked = e₂.date_stocked) ∨
         (e₁.water_name = e₂.water_name ∧ e₁.county = e₂.county ∧
          e₁.species ≠ e₂.species ∧ optNatStr e₁.quantity = optNatStr e₂.quantity ∧
          optDecStr e₁.avg_length = optDecStr e₂.avg_length ∧
          e₁.date_stocked = e₂.date_stocked) ∨
         (e₁.water_name = e₂.water_name ∧ e₁.county = e₂.county ∧
          e₁.species = e₂.species ∧ optNatStr e₁.quantity ≠ optNatStr e₂.quantity ∧
          optDecStr e₁.avg_length = optDecStr e₂.avg_length ∧
          e₁.date_stocked = e₂.date_stocked) ∨
         (e₁.water_name = e₂.water_name ∧ e₁.county = e₂.county ∧
          e₁.species = e₂.species ∧ optNatStr e₁.quantity = optNatStr e₂.quantity ∧
          optDecStr e₁.avg_length ≠ optDecStr e₂.avg_length ∧
          e₁.date_stocked = e₂.date_stocked) ∨
         (e₁.water_name = e₂.water_name ∧ e₁.county = e₂.county ∧
          e₁.species = e₂.species ∧ optNatStr e₁.quantity = optNatStr e₂.quantity ∧
          optDecStr e₁.avg_length = optDecStr e₂.avg_length ∧
          e₁.date_stocked ≠ e₂.date_stocked)) →
        claimFingerprint e₁ ≠ claimFingerprint e₂ ∧
        ∀ hash : String → String, Function.Injective hash →
          hash (claimFingerprint e₁) ≠ hash (claimFingerprint e₂)) := by
  refine ⟨?_, ?_, ?_, ?_⟩
  · intro hash now html e hmem
    obtain ⟨row, _, hrow⟩ :=
      List.mem_filterMap.mp (dedupById_subset _ e hmem)
    exact dwrRowFromTds_id hash now _ e hrow
  · intro hash now lines e hmem
    obtain ⟨a, b, d, rfl⟩ :=
      coWalk_shape hash now lines e (dedupById_subset _ e hmem)
    exact ⟨rfl, rfl⟩
  · intro e₁ e₂ h
    simp only [fpFields, List.cons.injEq, and_true] at h
    obtain ⟨h1, h2, h3, h4, h5, h6⟩ := h
    simp [claimFingerprint, h1, h2, h3, h4, h5, h6]
  · intro e₁ e₂ hcase
    have hne : claimFingerprint e₁ ≠ claimFingerprint e₂ :=
      fp_mid_ne e₁.water_name e₁.county e₁.species (optNatStr e₁.quantity)
        (optDecStr e₁.avg_length) e₁.date_stocked e₂.water_name e₂.county e₂.species
        (optNatStr e₂.quantity) (optDecStr e₂.avg_length) e₂.date_stocked hcase
    exact ⟨hne, fun hash hinj heq => hne (hinj heq)⟩

/-- C1 witness: the scheme equations applied to a concrete free-text
extraction, and fingerprint distinctness applied to two events differing only
in their county. -/
theorem claim1_witness :
    ((mkCoEvent idHash "T" "Blue Lake" "Wasatch" "2026-03-04").species = "TROUT" ∧
      (mkCoEvent idHash "T" "Blue Lake" "Wasatch" "2026-03-04").id =
        idHash ("CO|" ++ (mkCoEvent idHash "T" "Blue Lake" "Wasatch" "2026-03-04").water_name ++
          "|" ++ (mkCoEvent idHash "T" "Blue Lake" "Wasatch" "2026-03-04").county ++
          "|TROUT|" ++
          (mkCoEvent idHash "T" "Blue Lake" "Wasatch" "2026-03-04").date_stocked)) ∧
    claimFingerprint evA = claimFingerprint evA ∧
    claimFingerprint evA ≠ claimFingerprint evC ∧
    idHash (claimFingerprint evA) ≠ idHash (claimFingerprint evC) :=
  ⟨claim1_fingerprint_scheme.2.1 idHash "T" ["Blue Lake", "Wasatch", "3/4/2026"]
      (mkCoEvent idHash "T" "Blue Lake" "Wasatch" "2026-03-04") (by decide),
   claim1_fingerprint_scheme.2.2.1 evA evA rfl,
   (claim1_fingerprint_scheme.2.2.2 evA evC (by decide)).1,
   (claim1_fingerprint_scheme.2.2.2 evA evC (by decide)).2 idHash (fun _ _ h => h)⟩

/-! ### Store-contract lemmas (C3, C7) -/

theorem insertLoop_eq :
    ∀ (batch store : List StockEvent),
      insertLoop store batch =
        ((freshOnes store batch).length, store ++ freshOnes store batch) := by
  intro batch
  induction batch with
  | nil => intro store; simp [insertLoop, freshOnes]
  | cons e es ih =>
    intro store
    rw [insertLoop, freshOnes]
    by_cases hc : (store.any fun r => r.id == e.id) = true
    · rw [if_pos hc, if_pos hc]
      exact ih store
    · rw [if_neg hc, if_neg hc]
      rw [ih (store ++ [e])]
      simp

theorem freshOnes_subset :
    ∀ (batch store : List StockEvent) (e : StockEvent),
      e ∈ freshOnes store batch → e ∈ batch := by
  intro batch
  induction batch with
  | nil => intro store e h; simp [freshOnes] at h
  | cons x xs ih =>
    intro store e h
    rw [freshOnes] at h
    by_cases hc : (store.any fun r => r.id == x.id) = true
    · rw [if_pos hc] at h
      exact List.mem_cons_of_mem x (ih store e h)
    · rw [if_neg hc] at h
      rcases List.mem_cons.mp h with h1 | h2
      · exact h1 ▸ List.mem_cons_self x xs
      · exact List.mem_cons_of_mem x (ih (store ++ [x]) e h2)

theorem freshOnes_ids_nodup :
    ∀ (batch store : List StockEvent), (store.map (·.id)).Nodup →
      ((store ++ freshOnes store batch).map (·.id)).Nodup := by
  intro batch
  induction batch with
  | nil => intro store h; simpa [freshOnes] using h
  | cons e es ih =>
    intro store h
    rw [freshOnes]
    by_cases hc : (store.any fun r => r.id == e.id) = true
    · rw [if_pos hc]
      exact ih store h
    · rw [if_neg hc]
      have hnotin : e.id ∉ store.map (·.id) := by
        intro hmem
        exact absurd ((any_id_iff store e.id).mpr hmem) (by simp [hc])
      have h2 : ((store ++ [e]).map (·.id)).Nodup := by
        rw [List.map_append, List.nodup_append]
        exact ⟨h, by simp, by simpa [List.Disjoint] using hnotin⟩
      have h3 := ih (store ++ [e]) h2
      simpa using h3

theorem strLeL_total : ∀ (a b : List Char), strLeL a b = true ∨ strLeL b a = true := by
  intro a
  induction a with
  | nil => intro b; exact Or.inl rfl
  | cons x xs ih =>
    intro b
    cases b with
    | nil => exact Or.inr rfl
    | cons y ys =>
      simp only [strLeL]
      by_cases h1 : x.toNat < y.toNat
      · left; simp [h1]
      · by_cases h2 : y.toNat < x.toNat
        · right; simp [h2]
        · have he : x.toNat = y.toNat := by omega
          rcases ih ys with h | h
          · left; simp [h1, he, h]
          · right; simp [h2, he.symm, h]

theorem strLeL_trans :
    ∀ (a b c : List Char), strLeL a b = true → strLeL b c = true → strLeL a c = true := by
  intro a
  induction a with
  | nil => intro b c _ _; rfl
  | cons x xs ih =>
    intro b c h1 h2
    cases b with
    | nil => simp [strLeL] at h1
    | cons y ys =>
      cases c with
      | nil => simp [strLeL] at h2
      | cons z zs =>
        simp only [strLeL] at h1 h2 ⊢
        by_cases a1 : x.toNat < y.toNat <;> by_cases a2 : y.toNat < z.toNat <;>
          by_cases a3 : x.toNat = y.toNat <;> by_cases a4 : y.toNat = z.toNat <;>
            simp [a1, a2, a3, a4] at h1 h2 ⊢ <;>
              first
              | omega
              | (exact ih ys zs h1 h2)

theorem tsLeB_total (a b : StockEvent) : tsLeB a b = true ∨ tsLeB b a = true :=
  strLeL_total _ _

theorem tsLeB_trans (a b c : StockEvent) :
    tsLeB a b = true → tsLeB b c = true → tsLeB a c = true :=
  strLeL_trans _ _ _

theorem insDesc_mem (e : StockEvent) :
    ∀ (l : List StockEvent) (y : StockEvent), y ∈ insDesc e l ↔ y = e ∨ y ∈ l := by
  intro l
  induction l with
  | nil => intro y; simp [insDesc]
  | cons x xs ih =>
    intro y
    rw [insDesc]
    by_cases hc : tsLeB e x = true
    · rw [if_pos hc]
      simp only [List.mem_cons, ih]
      tauto
    · rw [if_neg hc]
      simp only [List.mem_cons]

theorem insDesc_perm (e : StockEvent) :
    ∀ (l : List StockEvent), (insDesc e l).Perm (e :: l) := by
  intro l
  induction l with
  | nil => simp [insDesc]
  | cons x xs ih =>
    rw [insDesc]
    by_cases hc : tsLeB e x = true
    · rw [if_pos hc]
      exact (ih.cons x).trans (List.Perm.swap e x xs)
    · rw [if_neg hc]

theorem insDesc_pairwise (e : StockEvent) :
    ∀ (l : List StockEvent), List.Pairwise (fun a b => tsLeB b a = true) l →
      List.Pairwise (fun a b => tsLeB b a = true) (insDesc e l) := by
  intro l
  induction l with
  | nil => intro _; simp [insDesc]
  | cons x xs ih =>
    intro h
    rw [List.pairwise_cons] at h
    obtain ⟨hx, hxs⟩ := h
    rw [insDesc]
    by_cases hc : tsLeB e x = true
    · rw [if_pos hc]
      rw [List.pairwise_cons]
      refine ⟨?_, ih hxs⟩
      intro y hy
      rcases (insDesc_mem e xs y).mp hy with rfl | hy'
      · exact hc
      · exact hx y hy'
    · rw [if_neg hc]
      have hxe : tsLeB x e = true := by
        rcases tsLeB_total e x with h | h
        · exact absurd h hc
        · exact h
      rw [List.pairwise_cons]
      refine ⟨?_, ?_⟩
      · intro y hy
        rcases List.mem_cons.mp hy with rfl | hy'
        · exact hxe
        · exact tsLeB_trans y x e (hx y hy') hxe
      · rw [List.pairwise_cons]
        exact ⟨hx, hxs⟩

theorem sortDesc_perm (l : List StockEvent) : (sortDesc l).Perm l := by
  induction l with
  | nil => simp [sortDesc]
  | cons x xs ih =>
    rw [show sortDesc (x :: xs) = insDesc x (sortDesc xs) from rfl]
    exact (insDesc_perm x (sortDesc xs)).trans (ih.cons x)

theorem sortDesc_pairwise (l : List StockEvent) :
    List.Pairwise (fun a b => tsLeB b a = true) (sortDesc l) := by
  induction l with
  | nil => simp [sortDesc]
  | cons x xs ih => exact insDesc_pairwise x _ ih

/-- C3 counterexample: `insertedCount` is not the number of batch
events whose `id` was absent from the store — a batch repeating the same
fresh event counts it once, while the claim's count is two. -/
theorem claim3_counterexample :
    (insertNewEvents [] [evA, evA]).1 = 1 ∧ claimedInsertCount [] [evA, evA] = 2 := by
  refine ⟨by decide, by decide⟩

/-- C3 (amended): `insertedCount` is the number of batch events whose
`id` is neither already stored nor carried by an earlier accepted batch
event; the store gains exactly those records; and whenever the stored ids
are distinct and every batch event's `first_seen_at` is strictly greater
than that of every stored record, `newRecords` is exactly (a permutation
of) the genuinely-new records of this call — never a previously stored
record and never a rejected batch row. -/
theorem claim3_insert_contract :
    (∀ store batch : List StockEvent,
        (insertNewEvents store batch).1 = (freshOnes store batch).length) ∧
    (∀ store batch : List StockEvent,
        (insertNewEvents store batch).2.2 = store ++ freshOnes store batch) ∧
    (∀ store batch : List StockEvent,
        (store.map (·.id)).Nodup →
        (∀ e ∈ batch, ∀ r ∈ store, tsLeB e r = false) →
        ((insertNewEvents store batch).2.1).Perm (freshOnes store batch)) := by
  refine ⟨?_, ?_, ?_⟩
  · intro store batch
    simp [insertNewEvents, insertLoop_eq]
  · intro store batch
    simp [insertNewEvents, insertLoop_eq]
  · intro store batch hnodup hts
    have hcomp : (insertNewEvents store batch).2.1 =
        (sortDesc (store ++ freshOnes store batch)).take (freshOnes store batch).length := by
      simp [insertNewEvents, insertLoop_eq]
    rw [hcomp]
    set f := freshOnes store batch with hf
    set L := sortDesc (store ++ f) with hL
    have hperm : L.Perm (store ++ f) := sortDesc_perm _
    have hnodupSF : ((store ++ f).map (·.id)).Nodup := freshOnes_ids_nodup batch store hnodup
    have hnodupSF' : (store ++ f).Nodup := List.Nodup.of_map _ hnodupSF
    have hnodupL : L.Nodup := hperm.symm.nodup hnodupSF'
    have hfn : f.Nodup :=
      List.Nodup.of_map (·.id) (List.nodup_append.mp (by rwa [List.map_append] at hnodupSF)).2.1
    have hlenL : L.length = store.length + f.length := by
      rw [hperm.length_eq]
      simp
    have hlen_take : (L.take f.length).length = f.length := by
      rw [List.length_take]
      omega
    have hnodup_take : (L.take f.length).Nodup :=
      List.Nodup.sublist (List.take_sublist _ _) hnodupL
    have hfsubL : ∀ y ∈ f, y ∈ L := fun y hy =>
      hperm.mem_iff.mpr (List.mem_append_right _ hy)
    have hsorted : List.Pairwise (fun a b => tsLeB b a = true) L := sortDesc_pairwise _
    have hstepA : ∀ x ∈ L.take f.length, x ∈ f := by
      intro x hx
      by_contra hxf
      have hxL : x ∈ L := (List.take_sublist _ _).subset hx
      have hxs : x ∈ store := by
        rcases List.mem_append.mp (hperm.mem_iff.mp hxL) with h | h
        · exact h
        · exact absurd h hxf
      by_cases hsub : ∀ y ∈ f, y ∈ L.take f.length
      · have hsp : f.Subperm (L.take f.length) := List.subperm_of_subset hfn hsub
        have hp : f.Perm (L.take f.length) :=
          hsp.perm_of_length_le (le_of_eq hlen_take)
        exact hxf (hp.mem_iff.mpr hx)
      · push_neg at hsub
        obtain ⟨y, hyf, hyt⟩ := hsub
        have hyL : y ∈ L := hfsubL y hyf
        have hyd : y ∈ L.drop f.length := by
          have := hyL
          rw [← List.take_append_drop f.length L] at this
          rcases List.mem_append.mp this with h | h
          · exact absurd h hyt
          · exact h
        have hrel : tsLeB y x = true := by
          have hpw := hsorted
          rw [← List.take_append_drop f.length L] at hpw
          exact (List.pairwise_append.mp hpw).2.2 x hx y hyd
        have hfalse : tsLeB y x = false := hts y (freshOnes_subset batch store y hyf) x hxs
        rw [hrel] at hfalse
        exact absurd hfalse (by simp)
    have hsp2 : (L.take f.length).Subperm f := List.subperm_of_subset hnodup_take hstepA
    exact hsp2.perm_of_length_le (le_of_eq hlen_take.symm)

/-- C3 witness: the contract evaluated on the empty store with a
one-event batch whose timestamp trivially exceeds every (absent) stored
record. -/
theorem claim3_witness :
    ((insertNewEvents [] [evA]).2.1).Perm (freshOnes [] [evA]) :=
  claim3_insert_contract.2.2 [] [evA] (by decide) (by decide)

end FishStock
